import Mathlib

/-!
Verification development for the hyper-serp repository: a single-page
search UI consisting of an API client (`src/frontend/src/api.js`,
function `searchQuery`) and a React view component (`App`).

The JavaScript code is shallowly embedded: JavaScript runtime values are
modelled by `JSVal`, a fetch's possible outcomes by `FetchOutcome`,
thrown exceptions by `Except`, and the React component's state updates
by a step function over a `Session` (view state plus the number of
in-flight requests).
-/

/-- JavaScript runtime values, as needed by this codebase: JSON-decodable
data plus `undefined`. Numbers are modelled as integers (no number in
this code path is fractional). -/
inductive JSVal where
  | undefined : JSVal
  | null : JSVal
  | bool : Bool → JSVal
  | num : Int → JSVal
  | str : String → JSVal
  | arr : List JSVal → JSVal
  | obj : List (String × JSVal) → JSVal

namespace JSVal

/-- JavaScript truthiness: `undefined`, `null`, `false`, `0` and `""` are
falsy; every other value (including `[]` and `\x7b\x7d`) is truthy. -/
def truthy : JSVal → Bool
  | .undefined => false
  | .null => false
  | .bool b => b
  | .num n => n != 0
  | .str s => s != ""
  | .arr _ => true
  | .obj _ => true

/-- The `Array.isArray` test. -/
def isArray : JSVal → Bool
  | .arr _ => true
  | _ => false

/-- Whether the value is a plain object. -/
def isObj : JSVal → Bool
  | .obj _ => true
  | _ => false

/-- JavaScript property access `v.name`. Reading a property of
`undefined` or `null` throws a `TypeError` (modelled by `Except.error`);
on an object it yields the named field or `undefined`; on any other
value it yields `undefined`. -/
def getProp (v : JSVal) (name : String) : Except String JSVal :=
  match v with
  | .undefined => .error "TypeError"
  | .null => .error "TypeError"
  | .obj fields => .ok ((fields.lookup name).getD .undefined)
  | _ => .ok .undefined

/-- The `length` of an array value (the code only reads `.length` on
arrays). -/
def jsLength : JSVal → Nat
  | .arr xs => xs.length
  | _ => 0

/-- The elements of an array value, for list rendering. -/
def items : JSVal → List JSVal
  | .arr xs => xs
  | _ => []

end JSVal

/-- Possible outcomes of `await fetch(url)` followed by reading the body:
either the fetch promise rejects (network failure), or a response arrives
with an HTTP status and a body that either parses as JSON (`some v`) or
fails to parse (`none`, making `res.json()` reject). -/
inductive FetchOutcome where
  | networkError : FetchOutcome
  | response : Nat → Option JSVal → FetchOutcome

/-- The `Response.ok` getter: true exactly when the status is in the 2xx
range. -/
def resOk (status : Nat) : Bool :=
  200 ≤ status && status ≤ 299

/-- The body of the `try` block of `searchQuery` in `api.js`: await the
fetch (a rejection rethrows), throw `Error("Search failed")` when
`!res.ok`, await `res.json()` (a parse failure rethrows), then return
`data.results || []` (property access may throw a `TypeError`). -/
def searchAttempt (outcome : FetchOutcome) : Except String JSVal :=
  match outcome with
  | .networkError => .error "fetch failed"
  | .response status body =>
    if !resOk status then .error "Search failed"
    else
      match body with
      | none => .error "JSON parse error"
      | some data =>
        match data.getProp "results" with
        | .error e => .error e
        | .ok r => .ok (if r.truthy then r else .arr [])

/-- The function `searchQuery` of `api.js`: the `try` block wrapped in a
`catch` that swallows every thrown error and returns `[]`. Totality of
this definition is the embedding of the contract that the returned
promise always resolves and never rejects. -/
def searchQuery (outcome : FetchOutcome) : JSVal :=
  match searchAttempt outcome with
  | .ok v => v
  | .error _ => .arr []

/-- JavaScript `String.prototype.trim` whitespace per ECMAScript:
tab, line feed, vertical tab, form feed, carriage return, space,
no-break space, BOM, and the Unicode space separators. -/
def jsWhitespace (c : Char) : Bool :=
  c.toNat = 9 || c.toNat = 10 || c.toNat = 11 || c.toNat = 12 ||
  c.toNat = 13 || c.toNat = 32 || c.toNat = 0xA0 || c.toNat = 0x1680 ||
  (0x2000 ≤ c.toNat && c.toNat ≤ 0x200A) || c.toNat = 0x2028 ||
  c.toNat = 0x2029 || c.toNat = 0x202F || c.toNat = 0x205F ||
  c.toNat = 0x3000 || c.toNat = 0xFEFF

/-- JavaScript `query.trim()`: strip leading and trailing whitespace. -/
def jsTrim (s : String) : String :=
  ⟨((s.data.dropWhile jsWhitespace).reverse.dropWhile jsWhitespace).reverse⟩

/-- View state of the `App` component: the four `useState` hooks
`query`, `results`, `loading`, `hasSearched`. `results` is kept as a raw
`JSVal` so that the invariant that it is always an array is a provable
fact about the handlers, not a typing artefact. -/
structure ViewState where
  query : String
  results : JSVal
  loading : Bool
  hasSearched : Bool

/-- A session: the view state together with the number of in-flight
`searchQuery` calls (the code has no cancellation, so several may be
pending at once). -/
structure Session where
  view : ViewState
  pending : Nat

/-- The initial state of `App`: `useState("")`, `useState([])`,
`useState(false)`, `useState(false)`, no request in flight. -/
def initSession : Session :=
  { view := { query := "", results := .arr [], loading := false, hasSearched := false }
    pending := 0 }

/-- Events the component reacts to: typing in the input (`onChange`), a
window `keydown` (the Escape listener), a form submission starting
`handleSearch` (Enter key or the Search button), and the resolution of
an in-flight `searchQuery` promise with some value. -/
inductive Event where
  | input : String → Event
  | keydown : String → Event
  | submitStart : Event
  | resolve : JSVal → Event

/-- One step of the `App` event loop, translated from the component:
`onChange` runs `setQuery(e.target.value)`; the window listener runs
`e.key === "Escape" && setQuery("")`; `handleSearch` returns immediately
when `!query.trim()` and otherwise runs `setLoading(true)` and
`setHasSearched(true)` and issues the request; when a pending request
resolves with `data` the remainder of `handleSearch` runs
`setResults(Array.isArray(data) ? data : [])` and `setLoading(false)`. -/
def step (s : Session) (e : Event) : Session :=
  match e with
  | .input v => { s with view := { s.view with query := v } }
  | .keydown k =>
    if k = "Escape" then { s with view := { s.view with query := "" } } else s
  | .submitStart =>
    if jsTrim s.view.query = "" then s
    else { s with
            view := { s.view with loading := true, hasSearched := true }
            pending := s.pending + 1 }
  | .resolve data =>
    if s.pending = 0 then s
    else { s with
            view := { s.view with
                       results := if data.isArray then data else .arr []
                       loading := false }
            pending := s.pending - 1 }

/-- A run of the component: fold the step function over a list of events
starting from the initial state. A view state is reachable exactly when
some run ends in it. -/
def run (events : List Event) : Session :=
  events.foldl step initSession

/-- The placeholder rows rendered while loading:
`new Array(6).fill(null)`. -/
def skeletonRows : List JSVal := List.replicate 6 .null

/-- One of the three conditional sections of the component's `main`
element. -/
inductive ResultArea where
  | skeletons : Nat → ResultArea
  | emptyMessage : ResultArea
  | resultList : List JSVal → ResultArea

/-- The result area of the render, translated from the three JSX
conditionals of `App`: `loading && <skeleton list>`,
`!loading && hasSearched && results.length === 0 && <no results>`,
`!loading && results.length > 0 && <result list>`. -/
def renderArea (loading hasSearched : Bool) (results : List JSVal) : List ResultArea :=
  (if loading then [.skeletons skeletonRows.length] else []) ++
  (if !loading && hasSearched && results.length == 0 then [.emptyMessage] else []) ++
  (if !loading && results.length > 0 then [.resultList results] else [])

/-- The result area rendered for a view state. -/
def renderApp (v : ViewState) : List ResultArea :=
  renderArea v.loading v.hasSearched v.results.items

/-- Characters `encodeURIComponent` leaves unescaped: ASCII letters,
digits, and `- _ . ! ~ * ( )` and the apostrophe. -/
def uriUnreserved (c : Char) : Bool :=
  (65 ≤ c.toNat && c.toNat ≤ 90) || (97 ≤ c.toNat && c.toNat ≤ 122) ||
  (48 ≤ c.toNat && c.toNat ≤ 57) ||
  c = '-' || c = '_' || c = '.' || c = '!' || c = '~' || c = '*' ||
  c = '\'' || c = '(' || c = ')'

/-- The UTF-8 encoding of a code point, as a list of byte values. -/
def utf8Bytes (n : Nat) : List Nat :=
  if n < 0x80 then [n]
  else if n < 0x800 then [0xC0 + n / 64, 0x80 + n % 64]
  else if n < 0x10000 then [0xE0 + n / 4096, 0x80 + n / 64 % 64, 0x80 + n % 64]
  else [0xF0 + n / 262144, 0x80 + n / 4096 % 64, 0x80 + n / 64 % 64, 0x80 + n % 64]

/-- The uppercase hexadecimal digit for a value below 16. -/
def hexDigit (n : Nat) : Char :=
  if n < 10 then Char.ofNat (48 + n) else Char.ofNat (55 + n)

/-- A percent escape `%XX` for one byte. -/
def pctByte (b : Nat) : List Char :=
  ['%', hexDigit (b / 16), hexDigit (b % 16)]

/-- How `encodeURIComponent` renders one character: unreserved
characters stand for themselves, every other character becomes the
percent escapes of its UTF-8 bytes. -/
def encodeChar (c : Char) : List Char :=
  if uriUnreserved c then [c] else (utf8Bytes c.toNat).foldr (fun b acc => pctByte b ++ acc) []

/-- The ECMAScript `encodeURIComponent` builtin, applied character by
character. -/
def encodeURIComponent (s : String) : String :=
  ⟨s.data.foldr (fun c acc => encodeChar c ++ acc) []⟩

/-- The numeric value of a hexadecimal digit character, if any. -/
def hexVal (c : Char) : Option Nat :=
  if 48 ≤ c.toNat ∧ c.toNat ≤ 57 then some (c.toNat - 48)
  else if 65 ≤ c.toNat ∧ c.toNat ≤ 70 then some (c.toNat - 55)
  else if 97 ≤ c.toNat ∧ c.toNat ≤ 102 then some (c.toNat - 87)
  else none

/-- First phase of `decodeURIComponent`: turn percent escapes into byte
tokens (`Sum.inl`) and leave other characters as code-point tokens
(`Sum.inr`); fail on a malformed escape. -/
def pctTokens : List Char → Option (List (Sum Nat Nat))
  | [] => some []
  | c :: rest =>
    if c = '%' then
      match rest with
      | h1 :: h2 :: rest2 =>
        match hexVal h1, hexVal h2 with
        | some a, some b =>
          match pctTokens rest2 with
          | some ts => some (Sum.inl (16 * a + b) :: ts)
          | none => none
        | _, _ => none
      | _ => none
    else
      match pctTokens rest with
      | some ts => some (Sum.inr c.toNat :: ts)
      | none => none

/-- The value of a UTF-8 continuation byte token: defined on a byte
token in the range `0x80`..`0xBF`, undefined otherwise. -/
def contVal : Sum Nat Nat → Option Nat
  | Sum.inl b => if 0x80 ≤ b ∧ b < 0xC0 then some (b - 0x80) else none
  | Sum.inr _ => none

/-- Decoding of one strict UTF-8 sequence: given a leading byte and the
following tokens, yield the code point and the number of continuation
tokens consumed, rejecting stray continuation bytes, overlong forms,
surrogates and out-of-range code points (where the builtin throws
`URIError`). -/
def decodeSeq (b : Nat) (rest : List (Sum Nat Nat)) : Option (Nat × Nat) :=
  if b < 0x80 then some (b, 0)
  else if b < 0xC2 then none
  else if b < 0xE0 then
    match rest with
    | t2 :: _ =>
      match contVal t2 with
      | some x2 => some ((b - 0xC0) * 64 + x2, 1)
      | none => none
    | [] => none
  else if b < 0xF0 then
    match rest with
    | t2 :: t3 :: _ =>
      match contVal t2, contVal t3 with
      | some x2, some x3 =>
        if 0x800 ≤ (b - 0xE0) * 4096 + x2 * 64 + x3 ∧
            ¬(0xD800 ≤ (b - 0xE0) * 4096 + x2 * 64 + x3 ∧
              (b - 0xE0) * 4096 + x2 * 64 + x3 ≤ 0xDFFF) then
          some ((b - 0xE0) * 4096 + x2 * 64 + x3, 2)
        else none
      | _, _ => none
    | _ => none
  else if b < 0xF5 then
    match rest with
    | t2 :: t3 :: t4 :: _ =>
      match contVal t2, contVal t3, contVal t4 with
      | some x2, some x3, some x4 =>
        if 0x10000 ≤ (b - 0xF0) * 262144 + x2 * 4096 + x3 * 64 + x4 ∧
            (b - 0xF0) * 262144 + x2 * 4096 + x3 * 64 + x4 < 0x110000 then
          some ((b - 0xF0) * 262144 + x2 * 4096 + x3 * 64 + x4, 3)
        else none
      | _, _, _ => none
    | _ => none
  else none

/-- Second phase of `decodeURIComponent`: strict UTF-8 decoding of the
byte tokens, passing code-point tokens through. -/
def utf8DecodeTokens : List (Sum Nat Nat) → Option (List Nat)
  | [] => some []
  | Sum.inr cp :: rest => (utf8DecodeTokens rest).map (fun cps => cp :: cps)
  | Sum.inl b :: rest =>
    match decodeSeq b rest with
    | some (cp, k) => (utf8DecodeTokens (rest.drop k)).map (fun cps => cp :: cps)
    | none => none
termination_by l => l.length
decreasing_by
  all_goals simp [List.length_drop]
  omega

/-- The ECMAScript `decodeURIComponent` builtin, yielding the decoded
code points (or `none` where the builtin throws `URIError`). -/
def decodeURIComponent (s : String) : Option (List Nat) :=
  match pctTokens s.data with
  | some ts => utf8DecodeTokens ts
  | none => none

/-- The request URL built by `searchQuery`:
the template literal `API_BASE/search?q=encodeURIComponent(query)`,
with the base URL abstracted as a parameter (it comes from the build
environment). -/
def requestUrl (base query : String) : String :=
  base ++ "/search?q=" ++ encodeURIComponent query

/-- Splitting a character list at every occurrence of a separator (how a
query string is cut into `&`-separated parameters). -/
def splitAll (sep : Char) : List Char → List (List Char)
  | [] => [[]]
  | c :: rest =>
    if c = sep then [] :: splitAll sep rest
    else
      match splitAll sep rest with
      | [] => [[c]]
      | g :: gs => (c :: g) :: gs

/-- Splitting one parameter at its first `=` into key and value. -/
def splitKV : List Char → List Char × List Char
  | [] => ([], [])
  | c :: rest =>
    if c = '=' then ([], rest)
    else
      match splitKV rest with
      | (k, v) => (c :: k, v)

/-- Parsing a query string (the part after `?`) into key-value pairs:
split on `&`, then split each parameter at its first `=`. -/
def parseQuery (s : String) : List (String × String) :=
  (splitAll '&' s.data).map fun part =>
    match splitKV part with
    | (k, v) => (⟨k⟩, ⟨v⟩)

/-- C1: for every query, `searchQuery` never rejects and never throws
(it is a total function into resolved values, every throw of the `try`
block being swallowed by the `catch`), and on a non-2xx HTTP status, a
network failure, or a JSON parse failure of the response body it
resolves with the empty array `[]`. -/
theorem searchQuery_failure_resolves_empty :
    searchQuery .networkError = .arr [] ∧
    (∀ status body, resOk status = false →
      searchQuery (.response status body) = .arr []) ∧
    (∀ status, searchQuery (.response status none) = .arr []) := by
  refine ⟨rfl, ?_, ?_⟩
  · intro status body h
    simp [searchQuery, searchAttempt, h]
  · intro status
    cases h : resOk status <;> simp [searchQuery, searchAttempt, h]

/-- Witness for `searchQuery_failure_resolves_empty` at HTTP status 500
with a well-formed JSON body carrying results. -/
theorem searchQuery_failure_resolves_empty_witness :
    resOk 500 = false ∧
    searchQuery (.response 500 (some (.obj [("results", .arr [.str "cats"])]))) = .arr [] :=
  ⟨by decide, searchQuery_failure_resolves_empty.2.1 500 _ (by decide)⟩

/-- C4, counterexample: for the 2xx response whose valid JSON body is
the object with a `results` field holding `null`, the claim as stated
says `searchQuery` resolves with that field's value (`null`), but the
code computes `data.results || []` and the falsy field gives `[]`. -/
theorem searchQuery_falsy_results_counterexample :
    searchQuery (.response 200 (some (.obj [("results", JSVal.null)]))) = .arr [] ∧
    JSVal.arr [] ≠ JSVal.null :=
  ⟨rfl, fun h => JSVal.noConfusion h⟩

/-- C4, amended: for every 2xx response whose body is a valid JSON
object, `searchQuery` resolves with the body's `results` field when that
field is present and truthy, and with `[]` when it is absent or falsy;
for a valid JSON body that is not an object it resolves with `[]`. -/
theorem searchQuery_success_resolves_results :
    (∀ status fields, resOk status = true →
      searchQuery (.response status (some (.obj fields))) =
        match fields.lookup "results" with
        | some r => if r.truthy then r else .arr []
        | none => .arr []) ∧
    (∀ status v, resOk status = true → v.isObj = false →
      searchQuery (.response status (some v)) = .arr []) := by
  constructor
  · intro status fields h
    cases hl : fields.lookup "results" with
    | none => simp [searchQuery, searchAttempt, h, JSVal.getProp, hl, JSVal.truthy]
    | some r => simp [searchQuery, searchAttempt, h, JSVal.getProp, hl]
  · intro status v h hv
    cases v <;> simp_all [searchQuery, searchAttempt, JSVal.getProp, JSVal.truthy, JSVal.isObj]

/-- Witness for `searchQuery_success_resolves_results` at status 200
with body carrying a one-element result list. -/
theorem searchQuery_success_resolves_results_witness :
    resOk 200 = true ∧
    searchQuery (.response 200 (some (.obj [("results", JSVal.arr [JSVal.str "a"])]))) =
      JSVal.arr [JSVal.str "a"] :=
  ⟨by decide, searchQuery_success_resolves_results.1 200 _ (by decide)⟩

/-- A string all of whose characters are whitespace trims to the empty
string. -/
theorem jsTrim_eq_empty_of_all_whitespace (s : String)
    (h : s.data.all jsWhitespace = true) : jsTrim s = "" := by
  have h1 : s.data.dropWhile jsWhitespace = [] := by
    rw [List.dropWhile_eq_nil_iff]
    intro x hx
    exact List.all_eq_true.mp h x hx
  simp [jsTrim, h1]

/-- The inductive invariant of the event loop: a pending request implies
a search has started, populated results imply a search has started, and
`results` is always an array. -/
def SessionInv (s : Session) : Prop :=
  (0 < s.pending → s.view.hasSearched = true) ∧
  (0 < s.view.results.jsLength → s.view.hasSearched = true) ∧
  s.view.results.isArray = true

theorem sessionInv_init : SessionInv initSession := by
  refine ⟨?_, ?_, rfl⟩ <;> intro h <;> simp [initSession, JSVal.jsLength] at h

theorem sessionInv_step (s : Session) (e : Event) (h : SessionInv s) :
    SessionInv (step s e) := by
  obtain ⟨h1, h2, h3⟩ := h
  cases e with
  | input v => exact ⟨h1, h2, h3⟩
  | keydown k =>
    by_cases hk : k = "Escape" <;> simp [step, hk] <;> exact ⟨h1, h2, h3⟩
  | submitStart =>
    by_cases hq : jsTrim s.view.query = "" <;> simp [step, hq]
    · exact ⟨h1, h2, h3⟩
    · exact ⟨fun _ => rfl, fun _ => rfl, h3⟩
  | resolve data =>
    by_cases hp : s.pending = 0 <;> simp [step, hp]
    · exact ⟨h1, h2, h3⟩
    · have hs := h1 (Nat.pos_of_ne_zero hp)
      refine ⟨fun _ => hs, fun _ => hs, ?_⟩
      by_cases hd : data.isArray = true
      · rw [if_pos hd]; exact hd
      · rw [if_neg hd]; rfl

theorem sessionInv_run (events : List Event) : SessionInv (run events) := by
  suffices h : ∀ s, SessionInv s → SessionInv (events.foldl step s) from
    h _ sessionInv_init
  induction events with
  | nil => intro s hs; exact hs
  | cons e rest ih => intro s hs; exact ih _ (sessionInv_step s e hs)

/-- C5: in every reachable view state, `loading` and `hasSearched` are
never both false while `results` is non-empty: a positive result count
implies `loading = true` or `hasSearched = true`. -/
theorem reachable_results_nonempty_implies_searched (events : List Event)
    (h : 0 < (run events).view.results.jsLength) :
    (run events).view.loading = true ∨ (run events).view.hasSearched = true :=
  Or.inr ((sessionInv_run events).2.1 h)

/-- Witness for `reachable_results_nonempty_implies_searched` on the run
that types a query, submits it, and receives one result. -/
theorem reachable_results_nonempty_implies_searched_witness :
    0 < (run [.input "cats", .submitStart,
              .resolve (.arr [.null])]).view.results.jsLength ∧
    ((run [.input "cats", .submitStart,
           .resolve (.arr [.null])]).view.loading = true ∨
     (run [.input "cats", .submitStart,
           .resolve (.arr [.null])]).view.hasSearched = true) :=
  ⟨by decide, reachable_results_nonempty_implies_searched _ (by decide)⟩

/-- C3: submitting with a query that is empty or all whitespace is a
no-op: `handleSearch` returns before touching any state or issuing a
request, so the entire session (view state and pending-request count) is
unchanged. -/
theorem submit_blank_query_noop (s : Session)
    (h : s.view.query.data.all jsWhitespace = true) :
    step s .submitStart = s := by
  simp [step, jsTrim_eq_empty_of_all_whitespace _ h]

/-- Witness for `submit_blank_query_noop` on a state whose query is a
space and a tab. -/
theorem submit_blank_query_noop_witness :
    (" \t".data.all jsWhitespace = true) ∧
    step { view := { query := " \t", results := .arr [.null],
                     loading := false, hasSearched := true }
           pending := 0 } .submitStart =
      { view := { query := " \t", results := .arr [.null],
                  loading := false, hasSearched := true }
        pending := 0 } :=
  ⟨by decide, submit_blank_query_noop _ (by decide)⟩

/-- A concrete session whose query field holds `"cats"`, for witnesses. -/
def catsSession : Session :=
  { view := { query := "cats", results := .arr [], loading := false, hasSearched := false }
    pending := 0 }

/-- C2: submitting with a query whose trimmed value is non-blank sets
`loading = true` and `hasSearched = true` synchronously (in the state
reached before the request resolves), and once the `searchQuery` call
resolves the handler sets `results` from the returned value (the value
itself whenever it is a list) and `loading = false`. -/
theorem submit_nonblank_sets_flags_then_results (s : Session)
    (outcome : FetchOutcome) (h : jsTrim s.view.query ≠ "") :
    (step s .submitStart).view.loading = true ∧
    (step s .submitStart).view.hasSearched = true ∧
    (step (step s .submitStart) (.resolve (searchQuery outcome))).view.results =
      (if (searchQuery outcome).isArray then searchQuery outcome else .arr []) ∧
    (step (step s .submitStart) (.resolve (searchQuery outcome))).view.loading = false ∧
    ((searchQuery outcome).isArray = true →
      (step (step s .submitStart) (.resolve (searchQuery outcome))).view.results =
        searchQuery outcome) := by
  refine ⟨?_, ?_, ?_, ?_, ?_⟩ <;> simp [step, h]
  intro h'
  simp [h']

/-- Witness for `submit_nonblank_sets_flags_then_results` on the query
`"cats"` and a request that fails at the network level. -/
theorem submit_nonblank_sets_flags_then_results_witness :
    jsTrim "cats" ≠ "" ∧
    (step catsSession .submitStart).view.loading = true ∧
    (step (step catsSession .submitStart)
      (.resolve (searchQuery .networkError))).view.loading = false :=
  ⟨by decide,
   (submit_nonblank_sets_flags_then_results catsSession .networkError (by decide)).1,
   (submit_nonblank_sets_flags_then_results catsSession .networkError (by decide)).2.2.2.1⟩

/-- No single event resets `hasSearched` once it is true. -/
theorem hasSearched_step_mono (s : Session) (e : Event)
    (h : s.view.hasSearched = true) : (step s e).view.hasSearched = true := by
  cases e with
  | input v => exact h
  | keydown k => by_cases hk : k = "Escape" <;> simp [step, hk, h]
  | submitStart => by_cases hq : jsTrim s.view.query = "" <;> simp [step, hq, h]
  | resolve data => by_cases hp : s.pending = 0 <;> simp [step, hp, h]

/-- A whole tail of events preserves `hasSearched`. -/
theorem hasSearched_foldl_mono (l : List Event) (s : Session)
    (h : s.view.hasSearched = true) : (l.foldl step s).view.hasSearched = true := by
  induction l generalizing s with
  | nil => exact h
  | cons e rest ih => exact ih _ (hasSearched_step_mono s e h)

/-- C6: `hasSearched` is monotonic within a session: once a run of
events has made it true, no continuation of the run (typing, submitting,
Escape, clearing the query) resets it to false. -/
theorem hasSearched_monotonic (pre post : List Event)
    (h : (run pre).view.hasSearched = true) :
    (run (pre ++ post)).view.hasSearched = true := by
  rw [run, List.foldl_append]
  exact hasSearched_foldl_mono post _ h

/-- Witness for `hasSearched_monotonic`: after searching for `"cats"`,
pressing Escape and clearing the field leaves the flag set. -/
theorem hasSearched_monotonic_witness :
    (run [Event.input "cats", Event.submitStart]).view.hasSearched = true ∧
    (run ([Event.input "cats", Event.submitStart] ++
          [Event.keydown "Escape", Event.input ""])).view.hasSearched = true :=
  ⟨by decide, hasSearched_monotonic _ _ (by decide)⟩

/-- C7: the result area is a pure function of `loading`, `hasSearched`
and the result list matching the spec's table: loading renders exactly
the 6 skeleton rows; not loading with a completed search and no results
renders the no-results message; not loading with a non-empty result list
renders the list; in the remaining (idle) case nothing is rendered; and
at most one of the three sections ever appears. -/
theorem renderArea_state_table :
    (∀ hs rs, renderArea true hs rs = [.skeletons 6]) ∧
    (renderArea false true [] = [.emptyMessage]) ∧
    (∀ hs r rs, renderArea false hs (r :: rs) = [.resultList (r :: rs)]) ∧
    (renderArea false false [] = []) ∧
    (∀ l hs rs, (renderArea l hs rs).length ≤ 1) := by
  refine ⟨?_, rfl, ?_, rfl, ?_⟩
  · intro hs rs; simp [renderArea, skeletonRows]
  · intro hs r rs; simp [renderArea]
  · intro l hs rs; cases l <;> cases hs <;> cases rs <;> simp [renderArea]

/-- C8: a window keydown of the Escape key clears `query` to the empty
string and leaves `results`, `hasSearched`, `loading` and the pending
requests unchanged; in particular the rendered result area (a previously
shown result list included) is exactly what it was. -/
theorem escape_clears_query_only (s : Session) :
    (step s (.keydown "Escape")).view.query = "" ∧
    (step s (.keydown "Escape")).view.results = s.view.results ∧
    (step s (.keydown "Escape")).view.hasSearched = s.view.hasSearched ∧
    (step s (.keydown "Escape")).view.loading = s.view.loading ∧
    (step s (.keydown "Escape")).pending = s.pending ∧
    renderApp (step s (.keydown "Escape")).view = renderApp s.view := by
  simp [step, renderApp]

/-- C10: in every reachable view state `results` is an array, because
the handler stores `Array.isArray(data) ? data : []`: whenever a pending
call resolves with a non-array value the stored value is `[]`. -/
theorem results_always_array :
    (∀ events, (run events).view.results.isArray = true) ∧
    (∀ s data, 0 < s.pending → data.isArray = false →
      (step s (.resolve data)).view.results = .arr []) := by
  constructor
  · intro events; exact (sessionInv_run events).2.2
  · intro s data hp hd
    have hp0 : s.pending ≠ 0 := Nat.pos_iff_ne_zero.mp hp
    simp [step, hp0, hd]

/-- Witness for `results_always_array`: a resolved search returning the
number 5 (a truthy non-array) stores `[]`. -/
theorem results_always_array_witness :
    0 < (run [Event.input "cats", Event.submitStart]).pending ∧
    JSVal.isArray (JSVal.num 5) = false ∧
    (step (run [Event.input "cats", Event.submitStart])
      (.resolve (JSVal.num 5))).view.results = .arr [] :=
  ⟨by decide, rfl, results_always_array.2 _ _ (by decide) rfl⟩

/-- A hexadecimal digit below 16 reads back as its value. -/
theorem hexVal_hexDigit : ∀ n, n < 16 → hexVal (hexDigit n) = some n := by
  decide

/-- A non-escape character contributes its code point as a token. -/
theorem pctTokens_raw (c : Char) (rest : List Char) (ts : List (Sum Nat Nat))
    (hc : c ≠ '%') (h : pctTokens rest = some ts) :
    pctTokens (c :: rest) = some (Sum.inr c.toNat :: ts) := by
  unfold pctTokens
  rw [if_neg hc, h]

/-- A percent escape of a byte contributes that byte as a token. -/
theorem pctTokens_pct (b : Nat) (rest : List Char) (ts : List (Sum Nat Nat))
    (hb : b < 256) (h : pctTokens rest = some ts) :
    pctTokens (pctByte b ++ rest) = some (Sum.inl b :: ts) := by
  have h1 : hexVal (hexDigit (b / 16)) = some (b / 16) :=
    hexVal_hexDigit _ (by omega)
  have h2 : hexVal (hexDigit (b % 16)) = some (b % 16) :=
    hexVal_hexDigit _ (by omega)
  show pctTokens ('%' :: hexDigit (b / 16) :: hexDigit (b % 16) :: rest) = _
  unfold pctTokens
  rw [if_pos rfl]
  dsimp only
  rw [h1, h2, h]
  dsimp only
  rw [Nat.div_add_mod]

/-- The token list one character of `encodeURIComponent` output stands
for: its code point if unreserved, its UTF-8 bytes otherwise. -/
def charTokens (c : Char) : List (Sum Nat Nat) :=
  if uriUnreserved c then [Sum.inr c.toNat] else (utf8Bytes c.toNat).map Sum.inl

/-- UTF-8 bytes of an admissible code point are bytes. -/
theorem utf8Bytes_lt (n : Nat) (hn : n < 0x110000) :
    ∀ b ∈ utf8Bytes n, b < 256 := by
  intro b hb
  unfold utf8Bytes at hb
  split_ifs at hb <;> simp [List.mem_cons] at hb <;> omega

/-- Percent escapes of a byte list read back as those byte tokens. -/
theorem pctTokens_pctList (bs : List Nat) (rest : List Char) (ts : List (Sum Nat Nat))
    (hbs : ∀ b ∈ bs, b < 256) (h : pctTokens rest = some ts) :
    pctTokens (bs.foldr (fun b acc => pctByte b ++ acc) [] ++ rest) =
      some (bs.map Sum.inl ++ ts) := by
  induction bs with
  | nil => simpa using h
  | cons b bs ih =>
    have hb : b < 256 := hbs b (List.mem_cons_self b bs)
    have ih2 := ih (fun x hx => hbs x (List.mem_cons_of_mem b hx))
    simp only [List.foldr_cons, List.append_assoc, List.map_cons, List.cons_append]
    exact pctTokens_pct b _ _ hb ih2

/-- The encoding of one character reads back as its token list. -/
theorem pctTokens_encodeChar (c : Char) (rest : List Char) (ts : List (Sum Nat Nat))
    (h : pctTokens rest = some ts) :
    pctTokens (encodeChar c ++ rest) = some (charTokens c ++ ts) := by
  by_cases hu : uriUnreserved c
  · have hc : c ≠ '%' := by
      intro hcc
      rw [hcc] at hu
      exact absurd hu (by decide)
    simp only [encodeChar, charTokens, if_pos hu, List.cons_append, List.nil_append]
    exact pctTokens_raw c rest ts hc h
  · have hn : c.toNat < 0x110000 := by
      have hv := c.valid
      unfold UInt32.isValidChar Nat.isValidChar at hv
      rcases hv with hv | hv <;> [exact Nat.lt_trans hv (by norm_num); exact hv.2]
    simp only [encodeChar, charTokens, if_neg hu]
    exact pctTokens_pctList _ rest ts (utf8Bytes_lt _ hn) h

/-- A code-point token decodes to itself. -/
theorem utf8DecodeTokens_inr (cp : Nat) (ts : List (Sum Nat Nat)) (cps : List Nat)
    (h : utf8DecodeTokens ts = some cps) :
    utf8DecodeTokens (Sum.inr cp :: ts) = some (cp :: cps) := by
  unfold utf8DecodeTokens
  rw [h]
  rfl

/-- A one-byte (ASCII) sequence decodes to its byte. -/
theorem utf8DecodeTokens_one (n : Nat) (ts : List (Sum Nat Nat)) (cps : List Nat)
    (hn : n < 0x80) (h : utf8DecodeTokens ts = some cps) :
    utf8DecodeTokens (Sum.inl n :: ts) = some (n :: cps) := by
  unfold utf8DecodeTokens
  have hseq : decodeSeq n ts = some (n, 0) := by
    unfold decodeSeq
    rw [if_pos hn]
  rw [hseq]
  dsimp only [List.drop]
  rw [h]
  rfl

/-- A continuation byte token carries its low six bits. -/
theorem contVal_byte (x : Nat) (hx : x < 64) :
    contVal (Sum.inl (0x80 + x)) = some x := by
  simp only [contVal]
  rw [if_pos (by omega)]
  simp only [Option.some.injEq]
  omega

theorem decodeSeq_two (n : Nat) (ts : List (Sum Nat Nat))
    (h1 : 0x80 ≤ n) (h2 : n < 0x800) :
    decodeSeq (0xC0 + n / 64) (Sum.inl (0x80 + n % 64) :: ts) = some (n, 1) := by
  have hc : contVal (Sum.inl (0x80 + n % 64)) = some (n % 64) := by
    simp only [contVal]
    rw [if_pos (by omega)]
    simp only [Option.some.injEq]
    omega
  unfold decodeSeq
  rw [if_neg (by omega), if_neg (by omega), if_pos (by omega)]
  dsimp only
  rw [hc]
  dsimp only
  congr 2
  omega

/-- A two-byte sequence decodes to its code point. -/
theorem utf8DecodeTokens_two (n : Nat) (ts : List (Sum Nat Nat)) (cps : List Nat)
    (h1 : 0x80 ≤ n) (h2 : n < 0x800) (h : utf8DecodeTokens ts = some cps) :
    utf8DecodeTokens (Sum.inl (0xC0 + n / 64) :: Sum.inl (0x80 + n % 64) :: ts) =
      some (n :: cps) := by
  unfold utf8DecodeTokens
  rw [decodeSeq_two n ts h1 h2]
  dsimp only [List.drop]
  rw [h]
  rfl

theorem decodeSeq_three (n : Nat) (ts : List (Sum Nat Nat))
    (h1 : 0x800 ≤ n) (h2 : n < 0x10000) (hs : ¬(0xD800 ≤ n ∧ n ≤ 0xDFFF)) :
    decodeSeq (0xE0 + n / 4096)
      (Sum.inl (0x80 + n / 64 % 64) :: Sum.inl (0x80 + n % 64) :: ts) =
      some (n, 2) := by
  unfold decodeSeq
  rw [if_neg (by omega), if_neg (by omega), if_neg (by omega), if_pos (by omega)]
  dsimp only
  rw [contVal_byte _ (by omega), contVal_byte _ (by omega)]
  dsimp only
  rw [if_pos (by omega)]
  simp only [Option.some.injEq, Prod.mk.injEq, and_true]
  omega

/-- A three-byte sequence decodes to its code point. -/
theorem utf8DecodeTokens_three (n : Nat) (ts : List (Sum Nat Nat)) (cps : List Nat)
    (h1 : 0x800 ≤ n) (h2 : n < 0x10000) (hs : ¬(0xD800 ≤ n ∧ n ≤ 0xDFFF))
    (h : utf8DecodeTokens ts = some cps) :
    utf8DecodeTokens (Sum.inl (0xE0 + n / 4096) ::
      Sum.inl (0x80 + n / 64 % 64) :: Sum.inl (0x80 + n % 64) :: ts) =
      some (n :: cps) := by
  unfold utf8DecodeTokens
  rw [decodeSeq_three n ts h1 h2 hs]
  dsimp only [List.drop]
  rw [h]
  rfl

theorem decodeSeq_four (n : Nat) (ts : List (Sum Nat Nat))
    (h1 : 0x10000 ≤ n) (h2 : n < 0x110000) :
    decodeSeq (0xF0 + n / 262144)
      (Sum.inl (0x80 + n / 4096 % 64) :: Sum.inl (0x80 + n / 64 % 64) ::
        Sum.inl (0x80 + n % 64) :: ts) = some (n, 3) := by
  unfold decodeSeq
  rw [if_neg (by omega), if_neg (by omega), if_neg (by omega), if_neg (by omega),
      if_pos (by omega)]
  dsimp only
  rw [contVal_byte _ (by omega), contVal_byte _ (by omega), contVal_byte _ (by omega)]
  dsimp only
  rw [if_pos (by omega)]
  simp only [Option.some.injEq, Prod.mk.injEq, and_true]
  omega

/-- A four-byte sequence decodes to its code point. -/
theorem utf8DecodeTokens_four (n : Nat) (ts : List (Sum Nat Nat)) (cps : List Nat)
    (h1 : 0x10000 ≤ n) (h2 : n < 0x110000) (h : utf8DecodeTokens ts = some cps) :
    utf8DecodeTokens (Sum.inl (0xF0 + n / 262144) ::
      Sum.inl (0x80 + n / 4096 % 64) :: Sum.inl (0x80 + n / 64 % 64) ::
      Sum.inl (0x80 + n % 64) :: ts) = some (n :: cps) := by
  unfold utf8DecodeTokens
  rw [decodeSeq_four n ts h1 h2]
  dsimp only [List.drop]
  rw [h]
  rfl

/-- Code points of characters avoid the surrogate range and the
out-of-range values. -/
theorem char_valid_range (c : Char) :
    c.toNat < 0xD800 ∨ (0xDFFF < c.toNat ∧ c.toNat < 0x110000) :=
  c.valid

/-- The token list of one character decodes back to that character. -/
theorem utf8DecodeTokens_charTokens (c : Char) (ts : List (Sum Nat Nat))
    (cps : List Nat) (h : utf8DecodeTokens ts = some cps) :
    utf8DecodeTokens (charTokens c ++ ts) = some (c.toNat :: cps) := by
  by_cases hu : uriUnreserved c
  · simp only [charTokens, if_pos hu, List.cons_append, List.nil_append]
    exact utf8DecodeTokens_inr _ _ _ h
  · simp only [charTokens, if_neg hu]
    have hv := char_valid_range c
    by_cases h1 : c.toNat < 0x80
    · simp only [utf8Bytes, if_pos h1, List.map_cons, List.map_nil,
                 List.cons_append, List.nil_append]
      exact utf8DecodeTokens_one _ ts cps h1 h
    · by_cases h2 : c.toNat < 0x800
      · simp only [utf8Bytes, if_neg h1, if_pos h2, List.map_cons, List.map_nil,
                   List.cons_append, List.nil_append]
        exact utf8DecodeTokens_two _ ts cps (by omega) h2 h
      · by_cases h3 : c.toNat < 0x10000
        · simp only [utf8Bytes, if_neg h1, if_neg h2, if_pos h3, List.map_cons,
                     List.map_nil, List.cons_append, List.nil_append]
          exact utf8DecodeTokens_three _ ts cps (by omega) h3 (by omega) h
        · simp only [utf8Bytes, if_neg h1, if_neg h2, if_neg h3, List.map_cons,
                     List.map_nil, List.cons_append, List.nil_append]
          exact utf8DecodeTokens_four _ ts cps (by omega) (by omega) h

/-- The encoding of a character list reads back as its token lists. -/
theorem pctTokens_encode_list (l : List Char) :
    pctTokens (l.foldr (fun c acc => encodeChar c ++ acc) []) =
      some (l.foldr (fun c acc => charTokens c ++ acc) []) := by
  induction l with
  | nil => rfl
  | cons c rest ih =>
    simp only [List.foldr_cons]
    exact pctTokens_encodeChar c _ _ ih

/-- The token lists of a character list decode to its code points. -/
theorem utf8DecodeTokens_charTokens_list (l : List Char) :
    utf8DecodeTokens (l.foldr (fun c acc => charTokens c ++ acc) []) =
      some (l.map Char.toNat) := by
  induction l with
  | nil => simp [utf8DecodeTokens]
  | cons c rest ih =>
    simp only [List.foldr_cons, List.map_cons]
    exact utf8DecodeTokens_charTokens c _ _ ih

/-- Round trip: decoding an encoded string recovers its code points. -/
theorem decode_encode (s : String) :
    decodeURIComponent (encodeURIComponent s) = some (s.data.map Char.toNat) := by
  unfold decodeURIComponent encodeURIComponent
  rw [show (String.mk (s.data.foldr (fun c acc => encodeChar c ++ acc) [])).data =
        s.data.foldr (fun c acc => encodeChar c ++ acc) [] from rfl]
  rw [pctTokens_encode_list]
  exact utf8DecodeTokens_charTokens_list s.data

/-- Hexadecimal digits are neither `&` nor `=`. -/
theorem hexDigit_ne_amp_eq : ∀ n, n < 16 → hexDigit n ≠ '&' ∧ hexDigit n ≠ '=' := by
  decide

/-- Characters of a percent escape are neither `&` nor `=`. -/
theorem pctByte_ne_amp_eq (b : Nat) (hb : b < 256) :
    ∀ c ∈ pctByte b, c ≠ '&' ∧ c ≠ '=' := by
  intro c hc
  simp only [pctByte, List.mem_cons, List.not_mem_nil, or_false] at hc
  rcases hc with h | h | h <;> subst h
  · exact ⟨by decide, by decide⟩
  · exact hexDigit_ne_amp_eq _ (by omega)
  · exact hexDigit_ne_amp_eq _ (by omega)

/-- Membership in a concatenation of percent escapes comes from one of
the bytes. -/
theorem mem_foldr_pctByte (bs : List Nat) (c : Char)
    (h : c ∈ bs.foldr (fun b acc => pctByte b ++ acc) []) :
    ∃ b ∈ bs, c ∈ pctByte b := by
  induction bs with
  | nil => simp at h
  | cons b bs ih =>
    simp only [List.foldr_cons, List.mem_append] at h
    rcases h with h | h
    · exact ⟨b, List.mem_cons_self b bs, h⟩
    · obtain ⟨b', hb', hc'⟩ := ih h
      exact ⟨b', List.mem_cons_of_mem b hb', hc'⟩

/-- Characters of one encoded character are neither `&` nor `=`. -/
theorem encodeChar_ne_amp_eq (c : Char) :
    ∀ x ∈ encodeChar c, x ≠ '&' ∧ x ≠ '=' := by
  intro x hx
  by_cases hu : uriUnreserved c
  · simp only [encodeChar, if_pos hu, List.mem_singleton] at hx
    subst hx
    constructor <;> intro hcc <;> rw [hcc] at hu <;> exact absurd hu (by decide)
  · simp only [encodeChar, if_neg hu] at hx
    have hn : c.toNat < 0x110000 := by
      rcases char_valid_range c with hv | hv <;> omega
    obtain ⟨b, hb, hxb⟩ := mem_foldr_pctByte _ x hx
    exact pctByte_ne_amp_eq b (utf8Bytes_lt _ hn b hb) x hxb

/-- Membership in an encoded character list comes from one character. -/
theorem mem_foldr_encodeChar (l : List Char) (x : Char)
    (h : x ∈ l.foldr (fun c acc => encodeChar c ++ acc) []) :
    ∃ c ∈ l, x ∈ encodeChar c := by
  induction l with
  | nil => simp at h
  | cons c cs ih =>
    simp only [List.foldr_cons, List.mem_append] at h
    rcases h with h | h
    · exact ⟨c, List.mem_cons_self c cs, h⟩
    · obtain ⟨c', hc', hx'⟩ := ih h
      exact ⟨c', List.mem_cons_of_mem c hc', hx'⟩

/-- No character of `encodeURIComponent` output is `&` or `=`. -/
theorem encodeURIComponent_ne_amp_eq (s : String) :
    ∀ x ∈ (encodeURIComponent s).data, x ≠ '&' ∧ x ≠ '=' := by
  intro x hx
  obtain ⟨c, _, hxc⟩ := mem_foldr_encodeChar s.data x hx
  exact encodeChar_ne_amp_eq c x hxc

/-- A list without the separator is a single split group. -/
theorem splitAll_not_mem (sep : Char) (l : List Char) (h : sep ∉ l) :
    splitAll sep l = [l] := by
  induction l with
  | nil => rfl
  | cons c rest ih =>
    have hc : c ≠ sep := fun hcc => h (hcc ▸ List.mem_cons_self c rest)
    have hr : sep ∉ rest := fun hm => h (List.mem_cons_of_mem c hm)
    unfold splitAll
    rw [if_neg hc, ih hr]

/-- The split of `q=<value>` at its first `=`. -/
theorem splitKV_q (v : List Char) : splitKV ('q' :: '=' :: v) = (['q'], v) := by
  unfold splitKV
  rw [if_neg (by decide)]
  unfold splitKV
  rw [if_pos rfl]

/-- A query string of shape `q=<value>` with no ampersand in the value
parses as the single parameter `q` with that value. -/
theorem parseQuery_single (v : String) (hA : '&' ∉ v.data) :
    parseQuery ("q=" ++ v) = [("q", v)] := by
  unfold parseQuery
  have hdata : ("q=" ++ v).data = 'q' :: '=' :: v.data := rfl
  have hmem : '&' ∉ ('q' :: '=' :: v.data) := by
    intro hm
    simp only [List.mem_cons] at hm
    rcases hm with h | h | h
    · exact absurd h (by decide)
    · exact absurd h (by decide)
    · exact hA h
  rw [hdata, splitAll_not_mem _ _ hmem]
  simp only [List.map_cons, List.map_nil]
  rw [splitKV_q]

/-- C9: the request URL places the percent-encoded query as the single
value of the `q` parameter: splitting the query string on `&` and `=`
yields exactly one parameter, named `q`, whose value decodes back to the
original query's code points — reserved characters such as `&` never
survive unencoded to split the parameter. -/
theorem requestUrl_single_param_roundtrip (base query : String) :
    requestUrl base query = base ++ "/search?" ++ ("q=" ++ encodeURIComponent query) ∧
    parseQuery ("q=" ++ encodeURIComponent query) = [("q", encodeURIComponent query)] ∧
    decodeURIComponent (encodeURIComponent query) =
      some (query.data.map Char.toNat) := by
  refine ⟨?_, ?_, decode_encode query⟩
  · unfold requestUrl
    rw [String.append_assoc, String.append_assoc]
    rw [show ("/search?q=" : String) = "/search?" ++ "q=" from by decide]
    rw [String.append_assoc]
  · exact parseQuery_single _ (fun hm => (encodeURIComponent_ne_amp_eq query _ hm).1 rfl)
